import Mathlib

/-!
Verification development for the Sync-Talk chat backend.

The JavaScript source is shallowly embedded: Mongo ObjectIds become `Nat`,
JavaScript `Date` values become `Int` (milliseconds), mongoose documents
become Lean structures, and document methods become pure functions on those
structures.  Fallible REST controllers return `Except String`.
-/

namespace SyncTalk

/-- One entry of `messageSchema.reactions`: `{ user, emoji, createdAt }`. -/
structure Reaction where
  user : Nat
  emoji : String
  createdAt : Int
deriving DecidableEq

/-- One entry of `messageSchema.readBy`: `{ user, readAt }`. -/
structure ReadReceipt where
  user : Nat
  readAt : Int
deriving DecidableEq

/-- The `messageType` enum of the message schema. -/
inductive MsgType where
  | text
  | image
  | file
  | system
deriving DecidableEq

/-- A mongoose `Message` document (fields of `messageSchema`; the optional
attachment subdocument is kept as its url). -/
structure MessageRec where
  sender : Nat
  content : String
  chat : Nat
  messageType : MsgType
  attachment : Option String
  readBy : List ReadReceipt
  reactions : List Reaction
  replyTo : Option Nat
  isEdited : Bool
  editedAt : Option Int
  isDeleted : Bool
  deletedAt : Option Int
  deletedBy : Option Nat
  createdAt : Int
deriving DecidableEq

/-- One entry of `chatSchema.unreadCount`: `{ user, count, lastRead }`. -/
structure UnreadEntry where
  user : Nat
  count : Nat
  lastRead : Int
deriving DecidableEq

/-- One entry of `chatSchema.typingUsers`: `{ user, timestamp }`. -/
structure TypingEntry where
  user : Nat
  timestamp : Int
deriving DecidableEq

/-- A mongoose `Chat` document (fields of `chatSchema`). -/
structure ChatRec where
  chatName : String
  isGroupChat : Bool
  users : List Nat
  latestMessage : Option Nat
  groupAdmin : Option Nat
  groupDescription : String
  groupAvatar : String
  unreadCount : List UnreadEntry
  typingUsers : List TypingEntry
deriving DecidableEq

/-- ASCII whitespace, for the embedding of `String.prototype.trim()`. -/
def isWsChar (c : Char) : Bool :=
  c = ' ' || c = '\t' || c = '\n' || c = '\r'

/-- Embedding of the JavaScript `trim()` used on message content and chat
names: drop leading and trailing whitespace. -/
def strTrim (s : String) : String :=
  ⟨((s.data.dropWhile isWsChar).reverse.dropWhile isWsChar).reverse⟩

namespace MessageRec

/-- Method `messageSchema.methods.addReaction`: filter out the existing reaction of
this user, then push `{ user, emoji }` (with `createdAt` defaulting to now). -/
def addReaction (m : MessageRec) (userId : Nat) (emoji : String) (now : Int) : MessageRec :=
  { m with reactions :=
      (m.reactions.filter (fun r => r.user ≠ userId)) ++ [{ user := userId, emoji := emoji, createdAt := now }] }

/-- Method `messageSchema.methods.removeReaction`: filter out the reaction of this user. -/
def removeReaction (m : MessageRec) (userId : Nat) : MessageRec :=
  { m with reactions := m.reactions.filter (fun r => r.user ≠ userId) }

/-- Method `messageSchema.methods.editContent`: replace the content, set `isEdited`,
stamp `editedAt`. -/
def editContent (m : MessageRec) (newContent : String) (now : Int) : MessageRec :=
  { m with content := newContent, isEdited := true, editedAt := some now }

end MessageRec

/-- One inbound reaction operation on a message (real-time `add_reaction` /
`remove_reaction`, or the REST reaction endpoints; all four call the two
message methods). -/
inductive ReactionOp where
  | add (userId : Nat) (emoji : String) (now : Int)
  | remove (userId : Nat)
deriving DecidableEq

/-- Apply one reaction operation via the message methods. -/
def applyReactionOp (m : MessageRec) : ReactionOp → MessageRec
  | .add u e now => m.addReaction u e now
  | .remove u => m.removeReaction u

/-- Apply a sequence of reaction operations, oldest first. -/
def applyReactionOps (m : MessageRec) (ops : List ReactionOp) : MessageRec :=
  ops.foldl applyReactionOp m

/-- The message document created by the socket `send_message` handler:
sender, trimmed content, owning chat, type, optional reply target; every
other field takes its schema default. -/
def mkMessage (senderId : Nat) (content : String) (chatId : Nat)
    (messageType : MsgType) (replyTo : Option Nat) (now : Int) : MessageRec :=
  { sender := senderId, content := strTrim content, chat := chatId,
    messageType := messageType, attachment := none, readBy := [],
    reactions := [], replyTo := replyTo, isEdited := false, editedAt := none,
    isDeleted := false, deletedAt := none, deletedBy := none, createdAt := now }

/-! Helper lemmas about filtered reaction lists. -/

theorem reactions_filter_ne_self (l : List Reaction) (u : Nat) :
    (l.filter (fun r => r.user ≠ u)).filter (fun r => r.user = u) = [] := by
  induction l with
  | nil => rfl
  | cons r rs ih =>
    by_cases h : r.user = u <;> simp [List.filter_cons, h, ih]

theorem filter_ne_idem (l : List Reaction) (u : Nat) :
    (l.filter (fun r => r.user ≠ u)).filter (fun r => r.user ≠ u)
      = l.filter (fun r => r.user ≠ u) := by
  induction l with
  | nil => rfl
  | cons r rs ih =>
    by_cases h : r.user = u <;> simp [List.filter_cons, h, ih]

theorem nodup_users_filter_ne (l : List Reaction) (u : Nat)
    (h : (l.map Reaction.user).Nodup) :
    ((l.filter (fun r => r.user ≠ u)).map Reaction.user).Nodup :=
  List.Nodup.sublist ((List.filter_sublist l).map Reaction.user) h

theorem nodup_users_addReaction (l : List Reaction) (u : Nat) (e : String) (n : Int)
    (h : (l.map Reaction.user).Nodup) :
    (((l.filter (fun r => r.user ≠ u)) ++
        [({ user := u, emoji := e, createdAt := n } : Reaction)]).map
        Reaction.user).Nodup := by
  rw [List.map_append]
  apply List.Nodup.append
  · exact nodup_users_filter_ne l u h
  · simp
  · intro a ha hb
    simp only [List.map_cons, List.map_nil, List.mem_singleton] at hb
    subst hb
    rcases List.mem_map.mp ha with ⟨r, hr, hru⟩
    have hp := List.of_mem_filter hr
    simp only [decide_not, Bool.not_eq_true', decide_eq_false_iff_not] at hp
    exact hp hru

theorem nodup_users_applyReactionOps (ops : List ReactionOp) (m : MessageRec)
    (h : (m.reactions.map Reaction.user).Nodup) :
    ((applyReactionOps m ops).reactions.map Reaction.user).Nodup := by
  induction ops generalizing m with
  | nil => simpa [applyReactionOps]
  | cons op ops ih =>
    have hstep : (((applyReactionOp m op).reactions).map Reaction.user).Nodup := by
      cases op with
      | add u e n => exact nodup_users_addReaction _ u e n h
      | remove u => exact nodup_users_filter_ne _ u h
    simpa [applyReactionOps, List.foldl_cons] using ih _ hstep

/-- C2: after `add_reaction(U, emoji1)` then `add_reaction(U, emoji2)` the
reaction list holds exactly one entry for U, carrying `emoji2`; and any
sequence of add/remove reaction operations applied to a freshly created
message leaves at most one reaction per user. -/
theorem reactions_at_most_one_per_user :
    (∀ (m : MessageRec) (u : Nat) (e1 e2 : String) (n1 n2 : Int),
      (((m.addReaction u e1 n1).addReaction u e2 n2).reactions.filter
          (fun r => r.user = u)) = [({ user := u, emoji := e2, createdAt := n2 } : Reaction)])
    ∧ (∀ (ops : List ReactionOp) (senderId : Nat) (content : String) (chatId : Nat)
        (messageType : MsgType) (replyTo : Option Nat) (now : Int),
      (((applyReactionOps (mkMessage senderId content chatId messageType replyTo now)
          ops).reactions).map Reaction.user).Nodup) := by
  constructor
  · intro m u e1 e2 n1 n2
    have hA : ((m.reactions.filter (fun r => r.user ≠ u)) ++
        [({ user := u, emoji := e1, createdAt := n1 } : Reaction)]).filter
          (fun r => r.user ≠ u) = m.reactions.filter (fun r => r.user ≠ u) := by
      rw [List.filter_append, filter_ne_idem]
      simp
    simp only [MessageRec.addReaction]
    rw [hA, List.filter_append, reactions_filter_ne_self]
    simp
  · intro ops senderId content chatId messageType replyTo now
    exact nodup_users_applyReactionOps ops _ (by simp [mkMessage])

namespace ChatRec

/-- Method `chatSchema.methods.incrementUnreadCount`: add one to the counter of every
entry whose user differs from the excluded (sending) user. -/
def incrementUnreadCount (c : ChatRec) (excludeUserId : Nat) : ChatRec :=
  { c with unreadCount := c.unreadCount.map (fun e =>
      if e.user ≠ excludeUserId then { e with count := e.count + 1 } else e) }

/-- Method `chatSchema.methods.addTypingUser`: drop any entry of this user, then
push a fresh `{ user, timestamp }` entry. -/
def addTypingUser (c : ChatRec) (userId : Nat) (now : Int) : ChatRec :=
  { c with typingUsers := (c.typingUsers.filter (fun e => e.user ≠ userId)) ++
      [{ user := userId, timestamp := now }] }

/-- Method `chatSchema.methods.removeTypingUser`: drop any entry of this user. -/
def removeTypingUser (c : ChatRec) (userId : Nat) : ChatRec :=
  { c with typingUsers := c.typingUsers.filter (fun e => e.user ≠ userId) }

/-- Method `chatSchema.methods.cleanOldTypingIndicators`: keep only the entries with
`timestamp > Date.now() - 5000`. -/
def cleanOldTypingIndicators (c : ChatRec) (now : Int) : ChatRec :=
  { c with typingUsers := c.typingUsers.filter (fun e => now - 5000 < e.timestamp) }

end ChatRec

/-- How the read path reports the unread counter of one user
(`getChats` in the chat controller: `unreadItem ? unreadItem.count : 0`
on the first matching `unreadCount` entry). -/
def getUnreadFor (c : ChatRec) (userId : Nat) : Nat :=
  ((c.unreadCount.find? (fun e => e.user = userId)).map UnreadEntry.count).getD 0

/-- The §3 chat invariant: a reference is in `users` iff `unreadCount` has an
entry for it. -/
def usersUnreadAligned (c : ChatRec) : Bool :=
  c.users.all (fun u => c.unreadCount.any (fun e => e.user = u)) &&
  c.unreadCount.all (fun e => c.users.contains e.user)

/-- The chat-document mutation of the socket `send_message` handler after
creating the message: set `latestMessage`, increment the unread counters of the other members, clear the typing entry of the sending user. -/
def sendMessageChatUpdate (c : ChatRec) (senderId : Nat) (messageId : Nat) : ChatRec :=
  (({ c with latestMessage := some messageId }).incrementUnreadCount senderId).removeTypingUser
    senderId

theorem find?_unread_inc_ne (l : List UnreadEntry) (sender u : Nat) (hne : u ≠ sender) :
    (l.map (fun e => if e.user ≠ sender then { e with count := e.count + 1 } else e)).find?
        (fun e => e.user = u)
      = (l.find? (fun e => e.user = u)).map (fun e => { e with count := e.count + 1 }) := by
  induction l with
  | nil => rfl
  | cons e es ih =>
    simp only [List.map_cons]
    by_cases hu : e.user = u
    · have hs : e.user ≠ sender := by rw [hu]; exact hne
      rw [if_pos hs]
      rw [List.find?_cons_of_pos _ (by simp [hu]), List.find?_cons_of_pos _ (by simp [hu])]
      simp
    · by_cases hs : e.user = sender
      · rw [if_neg (fun h => h hs)]
        rw [List.find?_cons_of_neg _ (by simp [hu]), List.find?_cons_of_neg _ (by simp [hu])]
        exact ih
      · rw [if_pos hs]
        rw [List.find?_cons_of_neg _ (by simp [hu]), List.find?_cons_of_neg _ (by simp [hu])]
        exact ih

theorem find?_unread_inc_sender (l : List UnreadEntry) (sender : Nat) :
    (l.map (fun e => if e.user ≠ sender then { e with count := e.count + 1 } else e)).find?
        (fun e => e.user = sender)
      = l.find? (fun e => e.user = sender) := by
  induction l with
  | nil => rfl
  | cons e es ih =>
    simp only [List.map_cons]
    by_cases hs : e.user = sender
    · rw [if_neg (fun h => h hs)]
      rw [List.find?_cons_of_pos _ (by simp [hs]), List.find?_cons_of_pos _ (by simp [hs])]
    · rw [if_pos hs]
      rw [List.find?_cons_of_neg _ (by simp [hs]), List.find?_cons_of_neg _ (by simp [hs])]
      exact ih

theorem find?_unread_isSome_of_aligned (c : ChatRec) (u : Nat)
    (hal : usersUnreadAligned c = true) (hmem : u ∈ c.users) :
    ∃ e, c.unreadCount.find? (fun x => x.user = u) = some e := by
  have h1 := (Bool.and_eq_true _ _ |>.mp hal).1
  rw [List.all_eq_true] at h1
  have h2 := h1 u hmem
  rw [List.any_eq_true] at h2
  obtain ⟨e, he, heu⟩ := h2
  cases hf : c.unreadCount.find? (fun x => x.user = u) with
  | none => exact absurd heu (List.find?_eq_none.mp hf e he)
  | some e2 => exact ⟨e2, rfl⟩

/-- C3: after a `send_message` mutation on a chat whose members and unread
entries are aligned, the unread counter of any member other than the sender
goes up by exactly one, and the counter of the sender is unchanged. -/
theorem send_message_unread_increment (c : ChatRec) (senderId u messageId : Nat)
    (hmem : u ∈ c.users) (hne : u ≠ senderId) (hal : usersUnreadAligned c = true) :
    getUnreadFor (sendMessageChatUpdate c senderId messageId) u = getUnreadFor c u + 1
    ∧ getUnreadFor (sendMessageChatUpdate c senderId messageId) senderId
        = getUnreadFor c senderId := by
  have hu1 : (sendMessageChatUpdate c senderId messageId).unreadCount
      = c.unreadCount.map (fun e =>
          if e.user ≠ senderId then { e with count := e.count + 1 } else e) := rfl
  obtain ⟨e, hfind⟩ := find?_unread_isSome_of_aligned c u hal hmem
  constructor
  · unfold getUnreadFor
    rw [hu1, find?_unread_inc_ne _ _ _ hne, hfind]
    simp
  · unfold getUnreadFor
    rw [hu1, find?_unread_inc_sender]

/-- A concrete two-member chat (users 1 and 2, counters 0 and 3) used to
instantiate the unread-counter theorem. -/
def demoTwoMemberChat : ChatRec :=
  { chatName := "Private Chat", isGroupChat := false, users := [1, 2],
    latestMessage := none, groupAdmin := none, groupDescription := "",
    groupAvatar := "",
    unreadCount := [{ user := 1, count := 0, lastRead := 0 },
      { user := 2, count := 3, lastRead := 0 }],
    typingUsers := [] }

/-- Concrete instance of C3: in `demoTwoMemberChat`, user 2 sends a message;
the counter of user 1 goes from 0 to 1 and the counter of user 2 stays 3. -/
theorem send_message_unread_increment_witness :
    1 ∈ demoTwoMemberChat.users ∧ (1 : Nat) ≠ 2
    ∧ usersUnreadAligned demoTwoMemberChat = true
    ∧ getUnreadFor (sendMessageChatUpdate demoTwoMemberChat 2 9) 1
        = getUnreadFor demoTwoMemberChat 1 + 1
    ∧ getUnreadFor (sendMessageChatUpdate demoTwoMemberChat 2 9) 2
        = getUnreadFor demoTwoMemberChat 2 :=
  ⟨by decide, by decide, by decide,
    (send_message_unread_increment demoTwoMemberChat 2 1 9 (by decide) (by decide) (by decide)).1,
    (send_message_unread_increment demoTwoMemberChat 2 1 9 (by decide) (by decide) (by decide)).2⟩

/-! Chat lifecycle operations (chat controller and `Chat` statics). -/

/-- First-occurrence deduplication, the order-preserving behaviour of
`[...new Set(allUsers)]` in `createGroupChat`; `seen` accumulates the ids
already emitted. -/
def dedupFirstAux (seen : List Nat) : List Nat → List Nat
  | [] => []
  | x :: xs =>
    if seen.contains x then dedupFirstAux seen xs
    else x :: dedupFirstAux (seen ++ [x]) xs

/-- Spread `[...new Set(l)]`: keep the first occurrence of each id, in order. -/
def dedupFirst (l : List Nat) : List Nat :=
  dedupFirstAux [] l

/-- The chat document created by `Chat.findOrCreateOneOnOneChat` when no
matching chat exists. -/
def mkOneOnOneChat (userId1 userId2 : Nat) (now : Int) : ChatRec :=
  { chatName := "Private Chat", isGroupChat := false, users := [userId1, userId2],
    latestMessage := none, groupAdmin := none, groupDescription := "", groupAvatar := "",
    unreadCount := [{ user := userId1, count := 0, lastRead := now },
      { user := userId2, count := 0, lastRead := now }],
    typingUsers := [] }

/-- REST `createGroupChat`: validate the shape of the request, validate the
supplied user ids against the user collection (`User.find` with `$in`
returns one document per distinct matching id), prepend the requester,
deduplicate, and build the group-chat document.  The derived avatar URL is
abstracted to the empty string. -/
def createGroupChat (existing : List Nat) (requesterId : Nat) (users : List Nat)
    (chatName : String) (groupDescription : String) (now : Int) : Except String ChatRec :=
  if users.length < 2 then
    .error "Group chat must have at least 2 other users"
  else if (strTrim chatName).length = 0 then
    .error "Group chat name is required"
  else if ((dedupFirst users).filter (fun u => existing.contains u)).length ≠ users.length then
    .error "One or more user IDs are invalid"
  else
    let uniqueUsers := dedupFirst (requesterId :: users)
    .ok
      { chatName := strTrim chatName, isGroupChat := true, users := uniqueUsers,
        latestMessage := none, groupAdmin := some requesterId,
        groupDescription := strTrim groupDescription, groupAvatar := "",
        unreadCount := uniqueUsers.map (fun u => { user := u, count := 0, lastRead := now }),
        typingUsers := [] }

/-- REST `addToGroup` on an already-fetched chat: reject an unknown or
already-present user, otherwise `$push` the user reference together with a
zeroed `unreadCount` entry. -/
def addToGroupChat (existing : List Nat) (c : ChatRec) (userId : Nat) (now : Int) : ChatRec :=
  if existing.contains userId = false then c
  else if c.users.contains userId then c
  else
    { c with
      users := c.users ++ [userId],
      unreadCount := c.unreadCount ++ [{ user := userId, count := 0, lastRead := now }] }

/-- REST `removeFromGroup`: reject a non-member or the group admin, otherwise
`$pull` the user reference and its `unreadCount` entry. -/
def removeFromGroupChat (c : ChatRec) (userId : Nat) : ChatRec :=
  if c.users.contains userId = false then c
  else if c.groupAdmin = some userId then c
  else
    { c with
      users := c.users.filter (fun u => u ≠ userId),
      unreadCount := c.unreadCount.filter (fun e => e.user ≠ userId) }

/-- REST `leaveGroup` acting on one chat document: `none` means the chat
record was deleted (the leaver was the admin and no member remains);
otherwise the possibly-updated document survives.  A departing admin hands
the role to the first remaining member before the member lists are
filtered. -/
def leaveGroupChat (c : ChatRec) (userId : Nat) : Option ChatRec :=
  if c.isGroupChat = false then some c
  else if c.users.contains userId = false then some c
  else if c.groupAdmin = some userId then
    match c.users.filter (fun u => u ≠ userId) with
    | [] => none
    | u :: _ =>
      some
        { c with
          groupAdmin := some u,
          users := c.users.filter (fun x => x ≠ userId),
          unreadCount := c.unreadCount.filter (fun e => e.user ≠ userId) }
  else
    some
      { c with
        users := c.users.filter (fun x => x ≠ userId),
        unreadCount := c.unreadCount.filter (fun e => e.user ≠ userId) }

/-- Chat records reachable through the chat lifecycle operations of the
controller: lazy one-on-one creation, group creation, add member, remove
member, leave group. -/
inductive ChatReachable : ChatRec → Prop where
  | oneOnOne (u1 u2 : Nat) (now : Int) : ChatReachable (mkOneOnOneChat u1 u2 now)
  | group {c : ChatRec} (existing : List Nat) (requesterId : Nat) (users : List Nat)
      (chatName groupDescription : String) (now : Int) :
      createGroupChat existing requesterId users chatName groupDescription now = .ok c →
      ChatReachable c
  | add {c : ChatRec} (existing : List Nat) (userId : Nat) (now : Int) :
      ChatReachable c → ChatReachable (addToGroupChat existing c userId now)
  | remove {c : ChatRec} (userId : Nat) :
      ChatReachable c → ChatReachable (removeFromGroupChat c userId)
  | leave {c c2 : ChatRec} (userId : Nat) :
      ChatReachable c → leaveGroupChat c userId = some c2 → ChatReachable c2

theorem usersUnreadAligned_iff (c : ChatRec) :
    usersUnreadAligned c = true ↔
      ((∀ u ∈ c.users, ∃ e ∈ c.unreadCount, e.user = u)
        ∧ ∀ e ∈ c.unreadCount, e.user ∈ c.users) := by
  simp [usersUnreadAligned, List.all_eq_true, List.any_eq_true]

theorem aligned_mkOneOnOneChat (u1 u2 : Nat) (now : Int) :
    usersUnreadAligned (mkOneOnOneChat u1 u2 now) = true := by
  rw [usersUnreadAligned_iff]
  constructor
  · intro u hu
    simp only [mkOneOnOneChat, List.mem_cons, List.not_mem_nil, or_false] at hu
    rcases hu with h | h
    · exact ⟨{ user := u1, count := 0, lastRead := now }, by simp [mkOneOnOneChat], h.symm⟩
    · exact ⟨{ user := u2, count := 0, lastRead := now }, by simp [mkOneOnOneChat], h.symm⟩
  · intro e he
    simp only [mkOneOnOneChat, List.mem_cons, List.not_mem_nil, or_false] at he
    rcases he with h | h <;> simp [mkOneOnOneChat, h]

theorem aligned_createGroupChat {existing : List Nat} {requesterId : Nat} {users : List Nat}
    {chatName groupDescription : String} {now : Int} {c : ChatRec}
    (h : createGroupChat existing requesterId users chatName groupDescription now = .ok c) :
    usersUnreadAligned c = true := by
  unfold createGroupChat at h
  split at h
  · exact absurd h (by simp)
  split at h
  · exact absurd h (by simp)
  split at h
  · exact absurd h (by simp)
  simp only [Except.ok.injEq] at h
  subst h
  rw [usersUnreadAligned_iff]
  constructor
  · intro u hu
    exact ⟨{ user := u, count := 0, lastRead := now }, List.mem_map_of_mem _ hu, rfl⟩
  · intro e he
    obtain ⟨u, hu, rfl⟩ := List.mem_map.mp he
    exact hu

theorem aligned_addToGroupChat (existing : List Nat) (c : ChatRec) (userId : Nat) (now : Int)
    (h : usersUnreadAligned c = true) :
    usersUnreadAligned (addToGroupChat existing c userId now) = true := by
  unfold addToGroupChat
  split
  · exact h
  split
  · exact h
  rw [usersUnreadAligned_iff] at h ⊢
  obtain ⟨h1, h2⟩ := h
  constructor
  · intro u hu
    rcases List.mem_append.mp hu with hu | hu
    · obtain ⟨e, he, heu⟩ := h1 u hu
      exact ⟨e, List.mem_append_left _ he, heu⟩
    · simp only [List.mem_singleton] at hu
      exact ⟨{ user := userId, count := 0, lastRead := now },
        List.mem_append_right _ (by simp), hu.symm⟩
  · intro e he
    rcases List.mem_append.mp he with he | he
    · exact List.mem_append_left _ (h2 e he)
    · simp only [List.mem_singleton] at he
      rw [he]
      exact List.mem_append_right _ (by simp)

theorem aligned_of_filter {users : List Nat} {unread : List UnreadEntry} (x : Nat)
    (h1 : ∀ u ∈ users, ∃ e ∈ unread, e.user = u) (h2 : ∀ e ∈ unread, e.user ∈ users) :
    (∀ u ∈ users.filter (fun u => u ≠ x), ∃ e ∈ unread.filter (fun e => e.user ≠ x), e.user = u)
    ∧ (∀ e ∈ unread.filter (fun e => e.user ≠ x), e.user ∈ users.filter (fun u => u ≠ x)) := by
  constructor
  · intro u hu
    rw [List.mem_filter] at hu
    obtain ⟨hu1, hu2⟩ := hu
    obtain ⟨e, he, heu⟩ := h1 u hu1
    refine ⟨e, List.mem_filter.mpr ⟨he, ?_⟩, heu⟩
    simpa [heu] using hu2
  · intro e he
    rw [List.mem_filter] at he
    obtain ⟨he1, he2⟩ := he
    exact List.mem_filter.mpr ⟨h2 e he1, he2⟩

theorem aligned_removeFromGroupChat (c : ChatRec) (userId : Nat)
    (h : usersUnreadAligned c = true) :
    usersUnreadAligned (removeFromGroupChat c userId) = true := by
  unfold removeFromGroupChat
  split
  · exact h
  split
  · exact h
  rw [usersUnreadAligned_iff] at h ⊢
  exact aligned_of_filter userId h.1 h.2

theorem aligned_leaveGroupChat {c c2 : ChatRec} (userId : Nat)
    (h : usersUnreadAligned c = true) (hl : leaveGroupChat c userId = some c2) :
    usersUnreadAligned c2 = true := by
  unfold leaveGroupChat at hl
  split at hl
  · cases hl; exact h
  split at hl
  · cases hl; exact h
  split at hl
  · split at hl
    · exact absurd hl (by simp)
    · cases hl
      rw [usersUnreadAligned_iff] at h ⊢
      exact aligned_of_filter userId h.1 h.2
  · cases hl
    rw [usersUnreadAligned_iff] at h ⊢
    exact aligned_of_filter userId h.1 h.2

/-- C5: every chat record reachable through the chat lifecycle operations
keeps `users` and `unreadCount` aligned: a user reference is a member iff it
owns an unread-counter entry. -/
theorem chat_users_unread_aligned (c : ChatRec) (h : ChatReachable c) :
    usersUnreadAligned c = true := by
  induction h with
  | oneOnOne u1 u2 now => exact aligned_mkOneOnOneChat u1 u2 now
  | group _ _ _ _ _ _ hok => exact aligned_createGroupChat hok
  | add existing userId now _ ih => exact aligned_addToGroupChat existing _ userId now ih
  | remove userId _ ih => exact aligned_removeFromGroupChat _ userId ih
  | leave userId _ hl ih => exact aligned_leaveGroupChat userId ih hl

/-- Concrete instance of C5: the lazily created one-on-one chat between
users 1 and 2 is aligned. -/
theorem chat_users_unread_aligned_witness :
    usersUnreadAligned (mkOneOnOneChat 1 2 0) = true :=
  chat_users_unread_aligned _ (ChatReachable.oneOnOne 1 2 0)

/-! The persistence store: chat and message collections in insertion order,
with the next fresh document id for each. -/

structure Store where
  chats : List (Nat × ChatRec)
  nextChatId : Nat
  messages : List (Nat × MessageRec)
  nextMessageId : Nat
deriving DecidableEq

/-- The `findOne` criterion of `Chat.findOrCreateOneOnOneChat`: a non-group
chat whose member list contains both user references. -/
def oneOnOneMatch (userId1 userId2 : Nat) (c : ChatRec) : Bool :=
  !c.isGroupChat && c.users.contains userId1 && c.users.contains userId2

/-- Static `Chat.findOrCreateOneOnOneChat`: return the first matching non-group
chat, or create a fresh one-on-one chat document.  The result is the chat
identity together with the updated store. -/
def findOrCreateOneOnOneChat (s : Store) (userId1 userId2 : Nat) (now : Int) : Nat × Store :=
  match s.chats.find? (fun p => oneOnOneMatch userId1 userId2 p.2) with
  | some p => (p.1, s)
  | none =>
      (s.nextChatId,
        { s with
          chats := s.chats ++ [(s.nextChatId, mkOneOnOneChat userId1 userId2 now)],
          nextChatId := s.nextChatId + 1 })

theorem oneOnOneMatch_comm (u1 u2 : Nat) (c : ChatRec) :
    oneOnOneMatch u1 u2 c = oneOnOneMatch u2 u1 c := by
  unfold oneOnOneMatch
  rw [Bool.and_assoc, Bool.and_assoc, Bool.and_comm (c.users.contains u1)]

theorem find?_ext {α : Type} (p q : α → Bool) (l : List α) (h : ∀ x, p x = q x) :
    l.find? p = l.find? q := by
  induction l with
  | nil => rfl
  | cons x xs ih =>
    by_cases hx : p x = true
    · rw [List.find?_cons_of_pos _ hx, List.find?_cons_of_pos _ (h x ▸ hx)]
    · rw [List.find?_cons_of_neg _ hx,
        List.find?_cons_of_neg _ (fun hq => hx ((h x).trans hq))]
      exact ih

theorem find?_append_of_none {α : Type} (p : α → Bool) (l1 l2 : List α)
    (h : l1.find? p = none) : (l1 ++ l2).find? p = l2.find? p := by
  induction l1 with
  | nil => rfl
  | cons x xs ih =>
    have hx : ¬ p x = true := by
      intro hx
      rw [List.find?_cons_of_pos _ hx] at h
      cases h
    rw [List.cons_append, List.find?_cons_of_neg _ hx]
    apply ih
    rwa [List.find?_cons_of_neg _ hx] at h

/-- C4: requesting the one-on-one chat of the same two users a second time,
with the users in either order, returns the identity of the existing chat
and leaves the store exactly as it was after the first request. -/
theorem one_on_one_chat_idempotent (s : Store) (a b : Nat) (n1 n2 : Int) :
    findOrCreateOneOnOneChat (findOrCreateOneOnOneChat s a b n1).2 b a n2
      = findOrCreateOneOnOneChat s a b n1 := by
  have hcomm : ∀ q : Nat × ChatRec,
      (fun q : Nat × ChatRec => oneOnOneMatch b a q.2) q
        = (fun q : Nat × ChatRec => oneOnOneMatch a b q.2) q :=
    fun q => oneOnOneMatch_comm b a q.2
  cases hf : s.chats.find? (fun q => oneOnOneMatch a b q.2) with
  | some p =>
    have e1 : findOrCreateOneOnOneChat s a b n1 = (p.1, s) := by
      unfold findOrCreateOneOnOneChat
      rw [hf]
    have h1 : s.chats.find? (fun q => oneOnOneMatch b a q.2) = some p := by
      rw [find?_ext _ _ _ hcomm]
      exact hf
    have e2 : findOrCreateOneOnOneChat s b a n2 = (p.1, s) := by
      unfold findOrCreateOneOnOneChat
      rw [h1]
    rw [e1]
    exact e2
  | none =>
    have e1 : findOrCreateOneOnOneChat s a b n1 =
        (s.nextChatId,
          { s with
            chats := s.chats ++ [(s.nextChatId, mkOneOnOneChat a b n1)],
            nextChatId := s.nextChatId + 1 }) := by
      unfold findOrCreateOneOnOneChat
      rw [hf]
    have h1 : s.chats.find? (fun q => oneOnOneMatch b a q.2) = none := by
      rw [find?_ext _ _ _ hcomm]
      exact hf
    have hmatch : (fun q : Nat × ChatRec => oneOnOneMatch b a q.2)
        (s.nextChatId, mkOneOnOneChat a b n1) = true := by
      simp [oneOnOneMatch, mkOneOnOneChat]
    have h2 : (s.chats ++ [(s.nextChatId, mkOneOnOneChat a b n1)]).find?
        (fun q => oneOnOneMatch b a q.2) = some (s.nextChatId, mkOneOnOneChat a b n1) := by
      rw [find?_append_of_none _ _ _ h1]
      exact List.find?_cons_of_pos _ hmatch
    have e2 : findOrCreateOneOnOneChat
        { s with
          chats := s.chats ++ [(s.nextChatId, mkOneOnOneChat a b n1)],
          nextChatId := s.nextChatId + 1 } b a n2 =
        (s.nextChatId,
          { s with
            chats := s.chats ++ [(s.nextChatId, mkOneOnOneChat a b n1)],
            nextChatId := s.nextChatId + 1 }) := by
      unfold findOrCreateOneOnOneChat
      rw [show ({ s with
          chats := s.chats ++ [(s.nextChatId, mkOneOnOneChat a b n1)],
          nextChatId := s.nextChatId + 1 } : Store).chats
        = s.chats ++ [(s.nextChatId, mkOneOnOneChat a b n1)] from rfl, h2]
    rw [e1]
    exact e2

/-! Store-level document access (`findById`, `findByIdAndDelete`, `save`). -/

/-- Query `Chat.findById`. -/
def lookupChat (s : Store) (chatId : Nat) : Option ChatRec :=
  (s.chats.find? (fun p => p.1 = chatId)).map Prod.snd

/-- Saving a fetched chat document back under its id. -/
def updateChat (s : Store) (chatId : Nat) (c : ChatRec) : Store :=
  { s with chats := s.chats.map (fun p => if p.1 = chatId then (chatId, c) else p) }

/-- Query `Chat.findByIdAndDelete`: removes the chat record only; messages are not
touched. -/
def removeChatRecord (s : Store) (chatId : Nat) : Store :=
  { s with chats := s.chats.filter (fun p => p.1 ≠ chatId) }

/-- Query `Message.findById`. -/
def lookupMessage (s : Store) (messageId : Nat) : Option MessageRec :=
  (s.messages.find? (fun p => p.1 = messageId)).map Prod.snd

/-- Saving a fetched message document back under its id. -/
def updateMessage (s : Store) (messageId : Nat) (m : MessageRec) : Store :=
  { s with messages := s.messages.map (fun p => if p.1 = messageId then (messageId, m) else p) }

/-- Outcome tag of the `leaveGroup` endpoint. -/
inductive LeaveResult where
  | notFound
  | notGroup
  | notMember
  | deleted
  | left
deriving DecidableEq

/-- REST `leaveGroup` over the store: fetch the chat, validate, transfer the
admin role on admin departure, delete the chat record when no member
remains, otherwise filter the leaver out of `users` and `unreadCount` and
save. -/
def leaveGroupEndpoint (s : Store) (chatId userId : Nat) : LeaveResult × Store :=
  match lookupChat s chatId with
  | none => (.notFound, s)
  | some chat =>
    if chat.isGroupChat = false then (.notGroup, s)
    else if chat.users.contains userId = false then (.notMember, s)
    else if chat.groupAdmin = some userId then
      match chat.users.filter (fun u => u ≠ userId) with
      | [] => (.deleted, removeChatRecord s chatId)
      | u :: _ =>
        (.left, updateChat s chatId
          { chat with
            groupAdmin := some u,
            users := chat.users.filter (fun x => x ≠ userId),
            unreadCount := chat.unreadCount.filter (fun e => e.user ≠ userId) })
    else
      (.left, updateChat s chatId
        { chat with
          users := chat.users.filter (fun x => x ≠ userId),
          unreadCount := chat.unreadCount.filter (fun e => e.user ≠ userId) })

/-- A solo group chat: user 1 is the only member and the admin; message 9
belongs to it. -/
def demoSoloGroupChat : ChatRec :=
  { chatName := "g", isGroupChat := true, users := [1], latestMessage := some 9,
    groupAdmin := some 1, groupDescription := "", groupAvatar := "",
    unreadCount := [{ user := 1, count := 0, lastRead := 0 }], typingUsers := [] }

/-- A message of chat 5, present while the chat is deleted. -/
def demoOrphanMessage : MessageRec :=
  { sender := 1, content := "hi", chat := 5, messageType := .text, attachment := none,
    readBy := [], reactions := [], replyTo := none, isEdited := false, editedAt := none,
    isDeleted := false, deletedAt := none, deletedBy := none, createdAt := 0 }

/-- Store with the solo group chat 5 and its message 9. -/
def demoLastMemberStore : Store :=
  { chats := [(5, demoSoloGroupChat)], nextChatId := 6,
    messages := [(9, demoOrphanMessage)], nextMessageId := 10 }

/-- Counterexample to C6: when the last member of group chat 5 leaves, the
chat record is removed, but its message 9 is still in the store, so the
messages of the chat are not removed. -/
theorem leave_group_keeps_messages_cex :
    (leaveGroupEndpoint demoLastMemberStore 5 1).1 = .deleted
    ∧ lookupChat (leaveGroupEndpoint demoLastMemberStore 5 1).2 5 = none
    ∧ ((leaveGroupEndpoint demoLastMemberStore 5 1).2.messages.filter
        (fun p => p.2.chat = 5)).length = 1 := by
  decide

/-- C6 as amended: on the departure of the admin with at least one remaining
member, the admin role goes to the first remaining member and the chat
persists with the filtered member list; when the last member leaves, the
chat record alone is removed and the message collection is untouched (the
messages are not deleted). -/
theorem leave_group_behaviour (s : Store) (chatId userId : Nat) (chat : ChatRec)
    (hc : lookupChat s chatId = some chat) (hg : chat.isGroupChat = true)
    (hm : chat.users.contains userId = true) (ha : chat.groupAdmin = some userId) :
    (∀ u rest, chat.users.filter (fun x => x ≠ userId) = u :: rest →
      (leaveGroupEndpoint s chatId userId).1 = .left
      ∧ (leaveGroupEndpoint s chatId userId).2 = updateChat s chatId
          { chat with
            groupAdmin := some u,
            users := chat.users.filter (fun x => x ≠ userId),
            unreadCount := chat.unreadCount.filter (fun e => e.user ≠ userId) })
    ∧ (chat.users.filter (fun x => x ≠ userId) = [] →
      (leaveGroupEndpoint s chatId userId).1 = .deleted
      ∧ (leaveGroupEndpoint s chatId userId).2.chats
          = s.chats.filter (fun p => p.1 ≠ chatId)
      ∧ (leaveGroupEndpoint s chatId userId).2.messages = s.messages) := by
  have hbase : leaveGroupEndpoint s chatId userId =
      (match chat.users.filter (fun u => u ≠ userId) with
        | [] => (LeaveResult.deleted, removeChatRecord s chatId)
        | u :: _ =>
          (LeaveResult.left, updateChat s chatId
            { chat with
              groupAdmin := some u,
              users := chat.users.filter (fun x => x ≠ userId),
              unreadCount := chat.unreadCount.filter (fun e => e.user ≠ userId) })) := by
    unfold leaveGroupEndpoint
    rw [hc]
    show (if chat.isGroupChat = false then (LeaveResult.notGroup, s)
      else if chat.users.contains userId = false then (LeaveResult.notMember, s)
      else if chat.groupAdmin = some userId then
        match chat.users.filter (fun u => u ≠ userId) with
        | [] => (LeaveResult.deleted, removeChatRecord s chatId)
        | u :: _ =>
          (LeaveResult.left, updateChat s chatId
            { chat with
              groupAdmin := some u,
              users := chat.users.filter (fun x => x ≠ userId),
              unreadCount := chat.unreadCount.filter (fun e => e.user ≠ userId) })
      else
        (LeaveResult.left, updateChat s chatId
          { chat with
            users := chat.users.filter (fun x => x ≠ userId),
            unreadCount := chat.unreadCount.filter (fun e => e.user ≠ userId) })) = _
    rw [if_neg (by rw [hg]; simp), if_neg (by rw [hm]; simp), if_pos ha]
  constructor
  · intro u rest hfil
    rw [hbase, hfil]
    exact ⟨rfl, rfl⟩
  · intro hfil
    rw [hbase, hfil]
    exact ⟨rfl, rfl, rfl⟩

/-- A three-member group chat 5: users 1, 2, 3, user 1 is the admin. -/
def demoTriGroupChat : ChatRec :=
  { chatName := "g3", isGroupChat := true, users := [1, 2, 3], latestMessage := none,
    groupAdmin := some 1, groupDescription := "", groupAvatar := "",
    unreadCount := [{ user := 1, count := 0, lastRead := 0 },
      { user := 2, count := 0, lastRead := 0 },
      { user := 3, count := 0, lastRead := 0 }],
    typingUsers := [] }

/-- Store holding the three-member group chat 5. -/
def demoTriStore : Store :=
  { chats := [(5, demoTriGroupChat)], nextChatId := 6, messages := [], nextMessageId := 1 }

/-- Concrete instance of the amended C6: admin 1 leaves the [1,2,3] group;
the result is a persisting chat whose admin is user 2, and in the solo
group the chat is deleted with the message collection untouched. -/
theorem leave_group_behaviour_witness :
    ((leaveGroupEndpoint demoTriStore 5 1).1 = .left
      ∧ (leaveGroupEndpoint demoTriStore 5 1).2 = updateChat demoTriStore 5
          { demoTriGroupChat with
            groupAdmin := some 2,
            users := demoTriGroupChat.users.filter (fun x => x ≠ 1),
            unreadCount := demoTriGroupChat.unreadCount.filter (fun e => e.user ≠ 1) })
    ∧ ((leaveGroupEndpoint demoLastMemberStore 5 1).1 = .deleted
      ∧ (leaveGroupEndpoint demoLastMemberStore 5 1).2.chats
          = demoLastMemberStore.chats.filter (fun p => p.1 ≠ 5)
      ∧ (leaveGroupEndpoint demoLastMemberStore 5 1).2.messages
          = demoLastMemberStore.messages) :=
  ⟨(leave_group_behaviour demoTriStore 5 1 demoTriGroupChat (by decide) (by decide)
      (by decide) (by decide)).1 2 [3] (by decide),
   (leave_group_behaviour demoLastMemberStore 5 1 demoSoloGroupChat (by decide) (by decide)
      (by decide) (by decide)).2 (by decide)⟩

/-- Outcome of the REST `editMessage` controller: the uniform error envelope
or the edited message document. -/
def editMessageEndpoint (s : Store) (messageId requesterId : Nat) (content : String)
    (now : Int) : Except String MessageRec × Store :=
  if (strTrim content).length = 0 then (.error "Message content is required", s)
  else
    match lookupMessage s messageId with
    | none => (.error "Message not found", s)
    | some m =>
      if m.sender ≠ requesterId then (.error "You can only edit your own messages", s)
      else if m.createdAt < now - 24 * 60 * 60 * 1000 then
        (.error "Cannot edit messages older than 24 hours", s)
      else
        (.ok (m.editContent (strTrim content) now),
          updateMessage s messageId (m.editContent (strTrim content) now))

theorem find?_update_self {β : Type} (l : List (Nat × β)) (mid : Nat) (m2 : β)
    (h : (l.find? (fun p => p.1 = mid)).isSome) :
    (l.map (fun p => if p.1 = mid then (mid, m2) else p)).find? (fun p => p.1 = mid)
      = some (mid, m2) := by
  induction l with
  | nil => simp [List.find?_nil] at h
  | cons x xs ih =>
    by_cases hx : x.1 = mid
    · rw [List.map_cons, if_pos hx]
      exact List.find?_cons_of_pos _ (by simp)
    · rw [List.map_cons, if_neg hx, List.find?_cons_of_neg _ (by simp [hx])]
      apply ih
      rwa [List.find?_cons_of_neg _ (by simp [hx])] at h

theorem lookupMessage_update_self (s : Store) (mid : Nat) (m m2 : MessageRec)
    (h : lookupMessage s mid = some m) :
    lookupMessage (updateMessage s mid m2) mid = some m2 := by
  unfold lookupMessage at h
  obtain ⟨p, hp, _⟩ := Option.map_eq_some'.mp h
  show ((s.messages.map (fun q => if q.1 = mid then (mid, m2) else q)).find?
      (fun q => q.1 = mid)).map Prod.snd = some m2
  rw [find?_update_self _ _ _ (by rw [hp]; rfl)]
  rfl

/-- C7: with a valid requester (the sender) and non-empty content, editing a
message strictly older than the 24-hour window returns the error envelope
and leaves the stored message untouched, while editing a message inside the
window replaces the content with the trimmed input and sets `isEdited`. -/
theorem edit_message_window (s : Store) (messageId requesterId : Nat) (content : String)
    (now : Int) (m : MessageRec)
    (hm : lookupMessage s messageId = some m) (hs : m.sender = requesterId)
    (hc : (strTrim content).length ≠ 0) :
    (m.createdAt < now - 24 * 60 * 60 * 1000 →
      (editMessageEndpoint s messageId requesterId content now).1
        = .error "Cannot edit messages older than 24 hours"
      ∧ (editMessageEndpoint s messageId requesterId content now).2 = s
      ∧ lookupMessage (editMessageEndpoint s messageId requesterId content now).2 messageId
        = some m)
    ∧ (¬ m.createdAt < now - 24 * 60 * 60 * 1000 →
      (editMessageEndpoint s messageId requesterId content now).1
        = .ok (m.editContent (strTrim content) now)
      ∧ lookupMessage (editMessageEndpoint s messageId requesterId content now).2 messageId
        = some (m.editContent (strTrim content) now)
      ∧ (m.editContent (strTrim content) now).content = strTrim content
      ∧ (m.editContent (strTrim content) now).isEdited = true) := by
  have hbase : editMessageEndpoint s messageId requesterId content now =
      (if m.createdAt < now - 24 * 60 * 60 * 1000 then
        ((.error "Cannot edit messages older than 24 hours" : Except String MessageRec), s)
      else
        (.ok (m.editContent (strTrim content) now),
          updateMessage s messageId (m.editContent (strTrim content) now))) := by
    unfold editMessageEndpoint
    rw [if_neg hc, hm]
    show (if m.sender ≠ requesterId then
        ((Except.error "You can only edit your own messages" : Except String MessageRec), s)
      else if m.createdAt < now - 24 * 60 * 60 * 1000 then
        (Except.error "Cannot edit messages older than 24 hours", s)
      else
        (Except.ok (m.editContent (strTrim content) now),
          updateMessage s messageId (m.editContent (strTrim content) now))) = _
    rw [if_neg (by rw [hs]; simp)]
  constructor
  · intro hold
    rw [hbase, if_pos hold]
    exact ⟨rfl, rfl, hm⟩
  · intro hnew
    rw [hbase, if_neg hnew]
    exact ⟨rfl, lookupMessage_update_self s messageId m _ hm, rfl, rfl⟩

/-- Concrete instance of C7: message 9 (created at time 0) cannot be edited
at time 100000000 (beyond 24 hours) and is left unchanged, but is edited at
time 1000. -/
theorem edit_message_window_witness :
    ((editMessageEndpoint demoLastMemberStore 9 1 "fixed" 100000000).1
        = .error "Cannot edit messages older than 24 hours"
      ∧ (editMessageEndpoint demoLastMemberStore 9 1 "fixed" 100000000).2
        = demoLastMemberStore)
    ∧ ((editMessageEndpoint demoLastMemberStore 9 1 "fixed" 1000).1
        = .ok (demoOrphanMessage.editContent (strTrim "fixed") 1000)
      ∧ (demoOrphanMessage.editContent (strTrim "fixed") 1000).isEdited = true) :=
  ⟨⟨((edit_message_window demoLastMemberStore 9 1 "fixed" 100000000 demoOrphanMessage
      (by decide) (by decide) (by decide)).1 (by decide)).1,
    ((edit_message_window demoLastMemberStore 9 1 "fixed" 100000000 demoOrphanMessage
      (by decide) (by decide) (by decide)).1 (by decide)).2.1⟩,
   ⟨((edit_message_window demoLastMemberStore 9 1 "fixed" 1000 demoOrphanMessage
      (by decide) (by decide) (by decide)).2 (by decide)).1,
    ((edit_message_window demoLastMemberStore 9 1 "fixed" 1000 demoOrphanMessage
      (by decide) (by decide) (by decide)).2 (by decide)).2.2.2⟩⟩

/-! The socket.io room and fan-out model for C1: rooms are keyed either by
chat id or by user id; an emit targets one room; a connected user receives
an event iff some emit with that event targets a room the user joined. -/

/-- A broadcast scope: one room per chat plus a private per-user room. -/
inductive Room where
  | chatRoom (chatId : Nat)
  | userRoom (userId : Nat)
deriving DecidableEq

/-- Outbound event names used by the two send paths. -/
inductive EvName where
  | messageReceived
  | notification
  | chatUpdated
deriving DecidableEq

/-- One `io.to(room).emit(event, ...)` call. -/
structure Emit where
  room : Room
  event : EvName
deriving DecidableEq

/-- Fan-out of the socket `send_message` handler:
`io.to(chatId).emit(message_received)`, then for each member other than the
sender: nothing if the member is not connected (a push-notification log
line), else `io.to(userId).emit(notification)` to the private room. -/
def socketSendFanout (chatId senderId : Nat) (chat : ChatRec) (connected : List Nat) :
    List Emit :=
  { room := .chatRoom chatId, event := .messageReceived } ::
    chat.users.filterMap (fun u =>
      if u ≠ senderId then
        if connected.contains u then some { room := .userRoom u, event := .notification }
        else none
      else none)

/-- Fan-out of the REST `sendMessage` controller:
`io.to(userId).emit(message_received)` for every member except the sender,
then `io.to(chatId).emit(chat_updated)`. -/
def restSendFanout (chatId senderId : Nat) (chat : ChatRec) : List Emit :=
  (chat.users.filterMap (fun u =>
    if u ≠ senderId then some { room := .userRoom u, event := .messageReceived } else none))
  ++ [{ room := .chatRoom chatId, event := .chatUpdated }]

/-- Rooms that the connection of a user joins at connect time: the private room keyed
by the user id, plus one room per chat the user belongs to. -/
def joinedRooms (userId : Nat) (chats : List (Nat × ChatRec)) : List Room :=
  .userRoom userId ::
    chats.filterMap (fun p =>
      if p.2.users.contains userId then some (.chatRoom p.1) else none)

/-- A connection subscribed to `rooms` receives event `ev` from the emit
list iff some emit carries `ev` into one of those rooms. -/
def delivered (emits : List Emit) (rooms : List Room) (ev : EvName) : Bool :=
  emits.any (fun e => e.event = ev && rooms.contains e.room)

/-- The chat mutation of the REST `sendMessage` controller: set
`latestMessage`, increment the unread counters of the
other members, remove the typing indicator of the sender. -/
def restSendMessageChatUpdate (c : ChatRec) (senderId : Nat) (messageId : Nat) : ChatRec :=
  (({ c with latestMessage := some messageId }).incrementUnreadCount senderId).removeTypingUser
    senderId

/-- The message document created by the REST `sendMessage` controller. -/
def restMkMessage (senderId : Nat) (content : String) (chatId : Nat)
    (messageType : MsgType) (replyTo : Option Nat) (now : Int) : MessageRec :=
  { sender := senderId, content := strTrim content, chat := chatId,
    messageType := messageType, attachment := none, readBy := [],
    reactions := [], replyTo := replyTo, isEdited := false, editedAt := none,
    isDeleted := false, deletedAt := none, deletedBy := none, createdAt := now }

theorem delivered_of_mem (emits : List Emit) (rooms : List Room) (ev : EvName) (e : Emit)
    (he : e ∈ emits) (hev : e.event = ev) (hr : e.room ∈ rooms) :
    delivered emits rooms ev = true := by
  unfold delivered
  rw [List.any_eq_true]
  refine ⟨e, he, ?_⟩
  simp [hev, hr]

/-- Counterexample to C1: user 1 sends to the two-member chat 7; on the
socket path the sender receives `message_received` through the chat room,
but on the REST path no `message_received` emit reaches any room the sender
joined, so the sender does not receive the event. -/
theorem http_send_skips_sender_cex :
    delivered (socketSendFanout 7 1 demoTwoMemberChat [1, 2])
        (joinedRooms 1 [(7, demoTwoMemberChat)]) .messageReceived = true
    ∧ delivered (restSendFanout 7 1 demoTwoMemberChat)
        (joinedRooms 1 [(7, demoTwoMemberChat)]) .messageReceived = false := by
  decide

/-- C1 as amended: the REST send path performs exactly the persisted-state
mutation of the socket handler (same chat update, same created message
document), and `message_received` reaches every member on both paths with
one exception: the socket path also delivers it to the sender (via the chat
room), while the REST path delivers it to every member except the sender
(via their private rooms) and never to the sender. -/
theorem send_message_rest_socket_parity :
    (∀ (c : ChatRec) (senderId messageId : Nat),
      restSendMessageChatUpdate c senderId messageId = sendMessageChatUpdate c senderId messageId)
    ∧ (∀ (senderId : Nat) (content : String) (chatId : Nat) (messageType : MsgType)
        (replyTo : Option Nat) (now : Int),
      restMkMessage senderId content chatId messageType replyTo now
        = mkMessage senderId content chatId messageType replyTo now)
    ∧ (∀ (chats : List (Nat × ChatRec)) (chatId senderId u : Nat) (c : ChatRec)
        (connected : List Nat),
      (chatId, c) ∈ chats → u ∈ c.users →
      delivered (socketSendFanout chatId senderId c connected) (joinedRooms u chats)
        .messageReceived = true)
    ∧ (∀ (chats : List (Nat × ChatRec)) (chatId senderId u : Nat) (c : ChatRec),
      u ∈ c.users → u ≠ senderId →
      delivered (restSendFanout chatId senderId c) (joinedRooms u chats)
        .messageReceived = true)
    ∧ (∀ (chats : List (Nat × ChatRec)) (chatId senderId : Nat) (c : ChatRec),
      delivered (restSendFanout chatId senderId c) (joinedRooms senderId chats)
        .messageReceived = false) := by
  refine ⟨fun c senderId messageId => rfl, fun _ _ _ _ _ _ => rfl, ?_, ?_, ?_⟩
  · intro chats chatId senderId u c connected hcc hu
    apply delivered_of_mem _ _ _ { room := .chatRoom chatId, event := .messageReceived }
    · exact List.mem_cons_self _ _
    · rfl
    · apply List.mem_cons_of_mem
      rw [List.mem_filterMap]
      exact ⟨(chatId, c), hcc, by rw [if_pos (List.elem_eq_true_of_mem hu)]⟩
  · intro chats chatId senderId u c hu hne
    apply delivered_of_mem _ _ _ { room := .userRoom u, event := .messageReceived }
    · apply List.mem_append_left
      rw [List.mem_filterMap]
      exact ⟨u, hu, by rw [if_pos hne]⟩
    · rfl
    · exact List.mem_cons_self _ _
  · intro chats chatId senderId c
    rw [Bool.eq_false_iff]
    intro hany
    unfold delivered at hany
    rw [List.any_eq_true] at hany
    obtain ⟨e, he, hp⟩ := hany
    rcases List.mem_append.mp he with he | he
    · obtain ⟨u, _, hfu⟩ := List.mem_filterMap.mp he
      by_cases husnd : u = senderId
      · rw [if_neg (by simp [husnd])] at hfu
        cases hfu
      · rw [if_pos husnd] at hfu
        injection hfu with hfu
        rw [← hfu] at hp
        simp only [Bool.and_eq_true, decide_eq_true_eq] at hp
        have hmem : Room.userRoom u ∈ joinedRooms senderId chats :=
          List.mem_of_elem_eq_true hp.2
        unfold joinedRooms at hmem
        rcases List.mem_cons.mp hmem with h1 | h1
        · exact husnd (Room.userRoom.injEq _ _ ▸ h1)
        · obtain ⟨q, _, hfq⟩ := List.mem_filterMap.mp h1
          by_cases hqq : q.2.users.contains senderId
          · rw [if_pos hqq] at hfq
            cases hfq
          · rw [if_neg hqq] at hfq
            cases hfq
    · simp only [List.mem_singleton] at he
      rw [he] at hp
      simp at hp

/-- Concrete instance of the amended C1: same persisted mutation for chat 7,
`message_received` reaches member 2 on both paths, and reaches sender 1 only
on the socket path. -/
theorem send_message_rest_socket_parity_witness :
    restSendMessageChatUpdate demoTwoMemberChat 1 9 = sendMessageChatUpdate demoTwoMemberChat 1 9
    ∧ restMkMessage 1 "hi" 7 .text none 0 = mkMessage 1 "hi" 7 .text none 0
    ∧ delivered (socketSendFanout 7 1 demoTwoMemberChat [1, 2])
        (joinedRooms 2 [(7, demoTwoMemberChat)]) .messageReceived = true
    ∧ delivered (restSendFanout 7 1 demoTwoMemberChat)
        (joinedRooms 2 [(7, demoTwoMemberChat)]) .messageReceived = true
    ∧ delivered (restSendFanout 7 1 demoTwoMemberChat)
        (joinedRooms 1 [(7, demoTwoMemberChat)]) .messageReceived = false :=
  ⟨send_message_rest_socket_parity.1 demoTwoMemberChat 1 9,
   send_message_rest_socket_parity.2.1 1 "hi" 7 .text none 0,
   send_message_rest_socket_parity.2.2.1 [(7, demoTwoMemberChat)] 7 1 2 demoTwoMemberChat
     [1, 2] (by decide) (by decide),
   send_message_rest_socket_parity.2.2.2.1 [(7, demoTwoMemberChat)] 7 1 2 demoTwoMemberChat
     (by decide) (by decide),
   send_message_rest_socket_parity.2.2.2.2 [(7, demoTwoMemberChat)] 7 1 demoTwoMemberChat⟩

/-! Lemmas about first-occurrence deduplication, for the group-creation
claim. -/

theorem mem_dedupFirstAux (l : List Nat) : ∀ (seen : List Nat) (a : Nat),
    (a ∈ dedupFirstAux seen l ↔ a ∈ l ∧ a ∉ seen) := by
  induction l with
  | nil =>
    intro seen a
    simp [dedupFirstAux]
  | cons x xs ih =>
    intro seen a
    by_cases hc : x ∈ seen
    · rw [show dedupFirstAux seen (x :: xs) = dedupFirstAux seen xs from by
        rw [dedupFirstAux, if_pos (List.elem_eq_true_of_mem hc)]]
      rw [ih]
      constructor
      · rintro ⟨h1, h2⟩
        exact ⟨List.mem_cons_of_mem _ h1, h2⟩
      · rintro ⟨h1, h2⟩
        rcases List.mem_cons.mp h1 with rfl | h1
        · exact absurd hc h2
        · exact ⟨h1, h2⟩
    · rw [show dedupFirstAux seen (x :: xs) = x :: dedupFirstAux (seen ++ [x]) xs from by
        rw [dedupFirstAux, if_neg (fun h => hc (List.mem_of_elem_eq_true h))]]
      constructor
      · intro h
        rcases List.mem_cons.mp h with rfl | h
        · exact ⟨List.mem_cons_self _ _, hc⟩
        · rw [ih] at h
          exact ⟨List.mem_cons_of_mem _ h.1, fun hs => h.2 (List.mem_append_left _ hs)⟩
      · rintro ⟨h1, h2⟩
        rcases List.mem_cons.mp h1 with rfl | h1
        · exact List.mem_cons_self _ _
        · by_cases hax : a = x
          · rw [hax]
            exact List.mem_cons_self _ _
          · apply List.mem_cons_of_mem
            rw [ih]
            refine ⟨h1, fun hs => ?_⟩
            rcases List.mem_append.mp hs with hs | hs
            · exact h2 hs
            · simp only [List.mem_singleton] at hs
              exact hax hs

theorem dedupFirstAux_length_le (l : List Nat) :
    ∀ seen, (dedupFirstAux seen l).length ≤ l.length := by
  induction l with
  | nil =>
    intro seen
    simp [dedupFirstAux]
  | cons x xs ih =>
    intro seen
    unfold dedupFirstAux
    by_cases hc : seen.contains x = true
    · rw [if_pos hc]
      exact Nat.le_succ_of_le (ih seen)
    · rw [if_neg hc]
      simpa using Nat.succ_le_succ (ih (seen ++ [x]))

theorem dedupFirstAux_length_eq (l : List Nat) : ∀ seen,
    (dedupFirstAux seen l).length = l.length → l.Nodup ∧ ∀ a ∈ l, a ∉ seen := by
  induction l with
  | nil =>
    intro seen _
    exact ⟨List.nodup_nil, by simp⟩
  | cons x xs ih =>
    intro seen hlen
    by_cases hc : seen.contains x = true
    · exfalso
      rw [show dedupFirstAux seen (x :: xs) = dedupFirstAux seen xs from by
          rw [dedupFirstAux, if_pos hc]] at hlen
      have hle := dedupFirstAux_length_le xs seen
      rw [List.length_cons] at hlen
      omega
    · rw [show dedupFirstAux seen (x :: xs) = x :: dedupFirstAux (seen ++ [x]) xs from by
          rw [dedupFirstAux, if_neg hc]] at hlen
      simp only [List.length_cons] at hlen
      have hlen2 : (dedupFirstAux (seen ++ [x]) xs).length = xs.length := by omega
      obtain ⟨hnd, hni⟩ := ih (seen ++ [x]) hlen2
      constructor
      · rw [List.nodup_cons]
        exact ⟨fun hx => (hni x hx) (List.mem_append_right _ (by simp)), hnd⟩
      · intro a ha
        rcases List.mem_cons.mp ha with rfl | ha
        · exact fun h => hc (List.elem_eq_true_of_mem h)
        · exact fun h => (hni a ha) (List.mem_append_left _ h)

theorem dedupFirstAux_of_nodup (l : List Nat) : ∀ seen, l.Nodup →
    dedupFirstAux seen l = l.filter (fun a => !seen.contains a) := by
  induction l with
  | nil =>
    intro seen _
    rfl
  | cons x xs ih =>
    intro seen hnd
    rw [List.nodup_cons] at hnd
    unfold dedupFirstAux
    by_cases hc : x ∈ seen
    · rw [if_pos (List.elem_eq_true_of_mem hc), List.filter_cons]
      rw [show (!seen.contains x) = false from by simp [hc]]
      simp only [Bool.false_eq_true, if_false]
      exact ih seen hnd.2
    · have hcb : ¬ seen.contains x = true := fun h => hc (List.mem_of_elem_eq_true h)
      rw [if_neg hcb, List.filter_cons]
      have hcf : (!seen.contains x) = true := by
        cases h : seen.contains x
        · rfl
        · exact absurd h hcb
      rw [hcf]
      simp only [if_true]
      rw [ih (seen ++ [x]) hnd.2]
      congr 1
      apply List.filter_congr
      intro a ha
      have hax : a ≠ x := fun h => hnd.1 (h ▸ ha)
      have h1 : ((seen ++ [x]).contains a) = (seen.contains a) := by simp [hax]
      rw [h1]

theorem createGroupChat_ok {existing : List Nat} {requesterId : Nat} {users : List Nat}
    {chatName groupDescription : String} {now : Int} {c : ChatRec}
    (h : createGroupChat existing requesterId users chatName groupDescription now = .ok c) :
    c.isGroupChat = true ∧ c.users = dedupFirst (requesterId :: users)
      ∧ 2 ≤ users.length ∧ users.Nodup := by
  unfold createGroupChat at h
  split at h
  case isTrue h1 => exact absurd h (by simp)
  case isFalse h1 =>
  split at h
  · exact absurd h (by simp)
  split at h
  case isTrue => exact absurd h (by simp)
  case isFalse hvalid =>
  simp only [Except.ok.injEq] at h
  rw [← h]
  refine ⟨rfl, rfl, by omega, ?_⟩
  have hv : ((dedupFirst users).filter (fun u => existing.contains u)).length
      = users.length := not_ne_iff.mp hvalid
  have hle1 : ((dedupFirst users).filter (fun u => existing.contains u)).length
      ≤ (dedupFirst users).length := List.length_filter_le _ _
  have hle2 : (dedupFirst users).length ≤ users.length := dedupFirstAux_length_le users []
  have heq : (dedupFirst users).length = users.length := by omega
  exact (dedupFirstAux_length_eq users [] heq).1

/-- Counterexample to C9: requester 1 submits `users = [1, 2]`, that is the
own id of the requester plus one other valid user; the request passes every
validation and succeeds, yet the created group chat has only 2 members. -/
theorem create_group_two_members_cex :
    (createGroupChat [1, 2] 1 [1, 2] "team" "" 0).toOption.map
        (fun c => (c.isGroupChat, c.users.length)) = some (true, 2) := by
  decide

/-- C9 as amended: a successful group creation yields a group chat whose
member list is the requester followed by the distinct supplied users, with
at least 2 members, and with at least 3 members whenever the requester is
not among the supplied users (supplied duplicates and unknown ids are
rejected, as is a `users` array shorter than 2, but a supplied array
containing the own id of the requester is accepted and can produce a 2-member
group). -/
theorem create_group_chat_members (existing : List Nat) (requesterId : Nat)
    (users : List Nat) (chatName groupDescription : String) (now : Int) :
    (∀ c, createGroupChat existing requesterId users chatName groupDescription now = .ok c →
      c.isGroupChat = true ∧ c.users = dedupFirst (requesterId :: users)
      ∧ 2 ≤ c.users.length
      ∧ (requesterId ∉ users → c.users.length = users.length + 1))
    ∧ (users.length < 2 →
      createGroupChat existing requesterId users chatName groupDescription now
        = .error "Group chat must have at least 2 other users") := by
  constructor
  · intro c h
    obtain ⟨hg, hu, hlen, hnd⟩ := createGroupChat_ok h
    have hsplit : dedupFirst (requesterId :: users)
        = requesterId :: dedupFirstAux [requesterId] users := rfl
    refine ⟨hg, hu, ?_, ?_⟩
    · rw [hu, hsplit]
      rw [dedupFirstAux_of_nodup users [requesterId] hnd]
      rw [List.length_cons]
      have h2 : ∀ a ∈ users, a ≠ requesterId →
          (!([requesterId] : List Nat).contains a) = true := by
        intro a _ hne
        simp [hne]
      by_cases hr : requesterId ∈ users
      · obtain ⟨u2, hu2, hneu⟩ : ∃ u2 ∈ users, u2 ≠ requesterId := by
          rcases users with _ | ⟨a, _ | ⟨b, rest⟩⟩
          · simp at hlen
          · simp at hlen
          · by_cases hab : a = requesterId
            · refine ⟨b, by simp, ?_⟩
              intro hb
              rw [List.nodup_cons, List.nodup_cons] at hnd
              exact hnd.1 (by rw [hab, ← hb]; simp)
            · exact ⟨a, by simp, hab⟩
        have : u2 ∈ users.filter (fun a => !([requesterId] : List Nat).contains a) :=
          List.mem_filter.mpr ⟨hu2, h2 u2 hu2 hneu⟩
        have hpos : 0 < (users.filter
            (fun a => !([requesterId] : List Nat).contains a)).length :=
          List.length_pos.mpr (fun he => by rw [he] at this; simp at this)
        omega
      · have : users.filter (fun a => !([requesterId] : List Nat).contains a) = users :=
          List.filter_eq_self.mpr (fun a ha => h2 a ha (fun he => hr (he ▸ ha)))
        rw [this]
        omega
    · intro hr
      rw [hu, hsplit, dedupFirstAux_of_nodup users [requesterId] hnd]
      have : users.filter (fun a => !([requesterId] : List Nat).contains a) = users :=
        List.filter_eq_self.mpr (fun a ha => by
          have : a ≠ requesterId := fun he => hr (he ▸ ha)
          simp [this])
      rw [this, List.length_cons]
  · intro hshort
    unfold createGroupChat
    rw [if_pos hshort]

/-- The group chat produced by a well-formed creation request of requester 1
with distinct other users 2 and 3. -/
def demoCreatedGroup : ChatRec :=
  { chatName := "team", isGroupChat := true, users := [1, 2, 3], latestMessage := none,
    groupAdmin := some 1, groupDescription := "", groupAvatar := "",
    unreadCount := [{ user := 1, count := 0, lastRead := 0 },
      { user := 2, count := 0, lastRead := 0 },
      { user := 3, count := 0, lastRead := 0 }],
    typingUsers := [] }

/-- Concrete instance of the amended C9: requester 1 with supplied users
[2, 3] gets a 3-member group; a single supplied user is rejected. -/
theorem create_group_chat_members_witness :
    createGroupChat [2, 3] 1 [2, 3] "team" "" 0 = .ok demoCreatedGroup
    ∧ demoCreatedGroup.isGroupChat = true
    ∧ demoCreatedGroup.users.length = 2 + 1
    ∧ createGroupChat [2] 1 [2] "team" "" 0
        = .error "Group chat must have at least 2 other users" :=
  ⟨by rfl,
   ((create_group_chat_members [2, 3] 1 [2, 3] "team" "" 0).1 demoCreatedGroup (by rfl)).1,
   by
     have h := ((create_group_chat_members [2, 3] 1 [2, 3] "team" "" 0).1 demoCreatedGroup
       (by rfl)).2.2.2 (by decide)
     simpa using h,
   (create_group_chat_members [2] 1 [2] "team" "" 0).2 (by decide)⟩

/-! Typing-indicator state, for C10 and C8. -/

/-- Chat records reachable through the typing-indicator operations, starting
from any chat with no typing entries. -/
inductive TypingReachable : ChatRec → Prop where
  | start (c : ChatRec) : c.typingUsers = [] → TypingReachable c
  | add {c : ChatRec} (userId : Nat) (now : Int) :
      TypingReachable c → TypingReachable (c.addTypingUser userId now)
  | remove {c : ChatRec} (userId : Nat) :
      TypingReachable c → TypingReachable (c.removeTypingUser userId)
  | clean {c : ChatRec} (now : Int) :
      TypingReachable c → TypingReachable (c.cleanOldTypingIndicators now)

theorem nodup_typing_filter (l : List TypingEntry) (p : TypingEntry → Bool)
    (h : (l.map TypingEntry.user).Nodup) :
    ((l.filter p).map TypingEntry.user).Nodup :=
  List.Nodup.sublist ((List.filter_sublist l).map TypingEntry.user) h

theorem nodup_typing_addTypingUser (l : List TypingEntry) (u : Nat) (n : Int)
    (h : (l.map TypingEntry.user).Nodup) :
    (((l.filter (fun e => e.user ≠ u)) ++ [({ user := u, timestamp := n } : TypingEntry)]).map
        TypingEntry.user).Nodup := by
  rw [List.map_append]
  apply List.Nodup.append
  · exact nodup_typing_filter l _ h
  · simp
  · intro a ha hb
    simp only [List.map_cons, List.map_nil, List.mem_singleton] at hb
    subst hb
    rcases List.mem_map.mp ha with ⟨r, hr, hru⟩
    have hp := List.of_mem_filter hr
    simp only [decide_not, Bool.not_eq_true', decide_eq_false_iff_not] at hp
    exact hp hru

/-- C10 as amended: the typing operations keep at most one `typingUsers`
entry per user, and `cleanOldTypingIndicators` keeps exactly the entries
strictly newer than `now - 5000` (so entries at least 5000 ms old are
removed, including the one exactly 5000 ms old), preserving their order. -/
theorem typing_indicator_invariants :
    (∀ c : ChatRec, TypingReachable c → (c.typingUsers.map TypingEntry.user).Nodup)
    ∧ (∀ (c : ChatRec) (now : Int) (e : TypingEntry),
      e ∈ (c.cleanOldTypingIndicators now).typingUsers ↔
        e ∈ c.typingUsers ∧ now - e.timestamp < 5000)
    ∧ (∀ (c : ChatRec) (now : Int),
      (c.cleanOldTypingIndicators now).typingUsers.Sublist c.typingUsers) := by
  refine ⟨?_, ?_, ?_⟩
  · intro c h
    induction h with
    | start c h0 => simp [h0]
    | add u n _ ih => exact nodup_typing_addTypingUser _ u n ih
    | remove u _ ih => exact nodup_typing_filter _ _ ih
    | clean n _ ih => exact nodup_typing_filter _ _ ih
  · intro c now e
    show e ∈ c.typingUsers.filter (fun e => now - 5000 < e.timestamp) ↔ _
    rw [List.mem_filter]
    constructor
    · rintro ⟨h1, h2⟩
      simp only [decide_eq_true_eq] at h2
      exact ⟨h1, by omega⟩
    · rintro ⟨h1, h2⟩
      refine ⟨h1, ?_⟩
      simp only [decide_eq_true_eq]
      omega
  · intro c now
    exact List.filter_sublist _

/-- A chat whose only typing entry is user 1 at timestamp 0. -/
def demoTypingChat : ChatRec :=
  { demoTwoMemberChat with typingUsers := [{ user := 1, timestamp := 0 }] }

/-- Counterexample to C10: at `now = 5000` the typing entry of user 1
(timestamp 0) is exactly 5000 ms old, hence not more than 5 seconds old,
yet `cleanOldTypingIndicators` removes it. -/
theorem clean_typing_boundary_cex :
    ¬ ((5000 : Int) - (0 : Int) > 5000)
    ∧ (demoTypingChat.cleanOldTypingIndicators 5000).typingUsers = [] := by
  decide

/-- Concrete instance of the amended C10: after a typing upsert the entry
list has distinct users, and the entry of age 4999 ms survives a clean. -/
theorem typing_indicator_invariants_witness :
    ((demoTwoMemberChat.addTypingUser 1 0).typingUsers.map TypingEntry.user).Nodup
    ∧ (({ user := 1, timestamp := 0 } : TypingEntry) ∈
          (demoTypingChat.cleanOldTypingIndicators 4999).typingUsers ↔
        ({ user := 1, timestamp := 0 } : TypingEntry) ∈ demoTypingChat.typingUsers
          ∧ (4999 : Int) - ({ user := 1, timestamp := 0 } : TypingEntry).timestamp < 5000) :=
  ⟨typing_indicator_invariants.1 _
      (TypingReachable.add 1 0 (TypingReachable.start demoTwoMemberChat rfl)),
   typing_indicator_invariants.2.1 demoTypingChat 4999 { user := 1, timestamp := 0 }⟩

/-! The single-threaded event-loop model for the typing timers (C8): inbound
`typing` / `stop_typing` events arrive in time order; each `typing` by a
member schedules a `setTimeout` 5000 ms out; the loop always processes the
earliest of the next inbound event and the earliest pending timer. -/

/-- Origin tag of a typing-related broadcast. -/
inductive TypingBroadcastKind where
  | typingStarted
  | stoppedFromHandler
  | stoppedFromExpiry
deriving DecidableEq

/-- One `user_typing` / `user_stopped_typing` broadcast to the chat room. -/
structure TypingBroadcast where
  kind : TypingBroadcastKind
  user : Nat
  time : Int
deriving DecidableEq

/-- One pending `setTimeout` callback of the typing handler. -/
structure TypingTimer where
  fireAt : Int
  user : Nat
deriving DecidableEq

/-- Kind of an inbound typing command. -/
inductive TypingCmdKind where
  | typingStart
  | typingStop
deriving DecidableEq

/-- One inbound `typing` or `stop_typing` event with its arrival time. -/
structure TypingCmd where
  time : Int
  kind : TypingCmdKind
  user : Nat
deriving DecidableEq

/-- The `typing` / `stop_typing` handlers: fetch the chat; if it exists and
the user is a member, upsert (resp. remove) the typing entry and broadcast;
a `typing` additionally schedules the 5000 ms auto-removal timer. -/
def execTypingCmd (cmd : TypingCmd) (chat : Option ChatRec) :
    Option ChatRec × List TypingBroadcast × Option TypingTimer :=
  match chat, cmd.kind with
  | none, _ => (none, [], none)
  | some ch, .typingStart =>
    if ch.users.contains cmd.user then
      (some (ch.addTypingUser cmd.user cmd.time),
        [{ kind := .typingStarted, user := cmd.user, time := cmd.time }],
        some { fireAt := cmd.time + 5000, user := cmd.user })
    else (some ch, [], none)
  | some ch, .typingStop =>
    if ch.users.contains cmd.user then
      (some (ch.removeTypingUser cmd.user),
        [{ kind := .stoppedFromHandler, user := cmd.user, time := cmd.time }], none)
    else (some ch, [], none)

/-- The fired `setTimeout` callback: re-fetch the chat; if it still exists,
unconditionally remove the typing entry and broadcast
`user_stopped_typing` — the callback does not re-check the timestamp. -/
def fireTypingTimer (t : TypingTimer) (chat : Option ChatRec) :
    Option ChatRec × List TypingBroadcast :=
  match chat with
  | none => (none, [])
  | some ch =>
    (some (ch.removeTypingUser t.user),
      [{ kind := .stoppedFromExpiry, user := t.user, time := t.fireAt }])

/-- Keep the pending timers sorted by fire time. -/
def insertTimer (x : TypingTimer) : List TypingTimer → List TypingTimer
  | [] => [x]
  | y :: ys => if x.fireAt < y.fireAt then x :: y :: ys else y :: insertTimer x ys

/-- Add the (at most one) timer scheduled by a command. -/
def addTimer (nt : Option TypingTimer) (ts : List TypingTimer) : List TypingTimer :=
  match nt with
  | none => ts
  | some x => insertTimer x ts

/-- One fuel-bounded run of the event loop, returning the broadcast log. -/
def runTypingFuel : Nat → List TypingCmd → List TypingTimer → Option ChatRec →
    List TypingBroadcast
  | 0, _, _, _ => []
  | _ + 1, [], [], _ => []
  | fuel + 1, [], t :: ts, chat =>
    (fireTypingTimer t chat).2 ++ runTypingFuel fuel [] ts (fireTypingTimer t chat).1
  | fuel + 1, c :: cs, [], chat =>
    (execTypingCmd c chat).2.1 ++
      runTypingFuel fuel cs (addTimer (execTypingCmd c chat).2.2 []) (execTypingCmd c chat).1
  | fuel + 1, c :: cs, t :: ts, chat =>
    if t.fireAt ≤ c.time then
      (fireTypingTimer t chat).2 ++ runTypingFuel fuel (c :: cs) ts (fireTypingTimer t chat).1
    else
      (execTypingCmd c chat).2.1 ++
        runTypingFuel fuel cs (addTimer (execTypingCmd c chat).2.2 (t :: ts))
          (execTypingCmd c chat).1

/-- Run the loop to completion: each step consumes a command or a timer and
a command schedules at most one timer, so `2·|cmds| + |timers|` steps
always suffice. -/
def runTyping (cmds : List TypingCmd) (timers : List TypingTimer)
    (chat : Option ChatRec) : List TypingBroadcast :=
  runTypingFuel (2 * cmds.length + timers.length) cmds timers chat

/-- Number of auto-expiry `user_stopped_typing` broadcasts in a log. -/
def countExpiry (bs : List TypingBroadcast) : Nat :=
  (bs.filter (fun b => b.kind = .stoppedFromExpiry)).length

/-- Number of typing-start commands in a trace. -/
def countTypingStarts (cs : List TypingCmd) : Nat :=
  (cs.filter (fun c => c.kind = .typingStart)).length

theorem execTypingCmd_start (ct : Int) (cu : Nat) (ch : ChatRec)
    (h : ch.users.contains cu = true) :
    execTypingCmd { time := ct, kind := .typingStart, user := cu } (some ch)
      = (some (ch.addTypingUser cu ct),
        [{ kind := .typingStarted, user := cu, time := ct }],
        some { fireAt := ct + 5000, user := cu }) := by
  show (if ch.users.contains cu = true then
      (some (ch.addTypingUser cu ct),
        [({ kind := .typingStarted, user := cu, time := ct } : TypingBroadcast)],
        some ({ fireAt := ct + 5000, user := cu } : TypingTimer))
    else (some ch, [], none)) = _
  rw [if_pos h]

theorem execTypingCmd_stop (ct : Int) (cu : Nat) (ch : ChatRec)
    (h : ch.users.contains cu = true) :
    execTypingCmd { time := ct, kind := .typingStop, user := cu } (some ch)
      = (some (ch.removeTypingUser cu),
        [{ kind := .stoppedFromHandler, user := cu, time := ct }], none) := by
  show (if ch.users.contains cu = true then
      (some (ch.removeTypingUser cu),
        [({ kind := .stoppedFromHandler, user := cu, time := ct } : TypingBroadcast)],
        (none : Option TypingTimer))
    else (some ch, [], none)) = _
  rw [if_pos h]

theorem insertTimer_length (x : TypingTimer) (ts : List TypingTimer) :
    (insertTimer x ts).length = ts.length + 1 := by
  induction ts with
  | nil => rfl
  | cons y ys ih =>
    unfold insertTimer
    by_cases h : x.fireAt < y.fireAt
    · rw [if_pos h]
      simp
    · rw [if_neg h]
      simp [ih]

theorem countExpiry_append (bs1 bs2 : List TypingBroadcast) :
    countExpiry (bs1 ++ bs2) = countExpiry bs1 + countExpiry bs2 := by
  unfold countExpiry
  rw [List.filter_append, List.length_append]

theorem countTypingStarts_cons_start (ct : Int) (cu : Nat) (cs : List TypingCmd) :
    countTypingStarts ({ time := ct, kind := .typingStart, user := cu } :: cs)
      = countTypingStarts cs + 1 := by
  unfold countTypingStarts
  rw [List.filter_cons]
  simp

theorem countTypingStarts_cons_stop (ct : Int) (cu : Nat) (cs : List TypingCmd) :
    countTypingStarts ({ time := ct, kind := .typingStop, user := cu } :: cs)
      = countTypingStarts cs := by
  unfold countTypingStarts
  rw [List.filter_cons]
  simp

theorem runTypingFuel_expiry_count (fuel : Nat) :
    ∀ (cmds : List TypingCmd) (timers : List TypingTimer) (ch : ChatRec),
    2 * cmds.length + timers.length ≤ fuel →
    (∀ c ∈ cmds, c.user ∈ ch.users) →
    countExpiry (runTypingFuel fuel cmds timers (some ch))
      = countTypingStarts cmds + timers.length := by
  induction fuel with
  | zero =>
    intro cmds timers ch hle _
    cases cmds with
    | nil =>
      cases timers with
      | nil => rfl
      | cons t ts =>
        exfalso
        simp only [List.length_cons, List.length_nil] at hle
        omega
    | cons c cs =>
      exfalso
      simp only [List.length_cons] at hle
      omega
  | succ fuel ih =>
    intro cmds timers ch hle hmem
    cases cmds with
    | nil =>
      cases timers with
      | nil => rfl
      | cons t ts =>
        rw [show runTypingFuel (fuel + 1) [] (t :: ts) (some ch)
            = (fireTypingTimer t (some ch)).2
              ++ runTypingFuel fuel [] ts (fireTypingTimer t (some ch)).1 from by
          rw [runTypingFuel]]
        rw [show fireTypingTimer t (some ch)
            = (some (ch.removeTypingUser t.user),
              [{ kind := .stoppedFromExpiry, user := t.user, time := t.fireAt }]) from rfl]
        rw [countExpiry_append]
        rw [ih [] ts (ch.removeTypingUser t.user)
          (by simp only [List.length_nil, List.length_cons] at hle ⊢; omega)
          (fun c hc => nomatch hc)]
        simp only [List.length_cons]
        rw [show countExpiry
            [({ kind := .stoppedFromExpiry, user := t.user, time := t.fireAt } :
              TypingBroadcast)] = 1 from rfl]
        omega
    | cons c cs =>
      obtain ⟨ct, ck, cu⟩ := c
      have hcu : ch.users.contains cu = true :=
        List.elem_eq_true_of_mem (hmem _ (List.mem_cons_self _ _))
      have hmem2 : ∀ x ∈ cs, x.user ∈ ch.users :=
        fun x hx => hmem x (List.mem_cons_of_mem _ hx)
      simp only [List.length_cons] at hle
      cases timers with
      | nil =>
        rw [show runTypingFuel (fuel + 1)
              ({ time := ct, kind := ck, user := cu } :: cs) [] (some ch)
            = (execTypingCmd { time := ct, kind := ck, user := cu } (some ch)).2.1 ++
              runTypingFuel fuel cs
                (addTimer (execTypingCmd { time := ct, kind := ck, user := cu }
                  (some ch)).2.2 [])
                (execTypingCmd { time := ct, kind := ck, user := cu } (some ch)).1 from by
          rw [runTypingFuel]]
        cases ck with
        | typingStart =>
          rw [execTypingCmd_start ct cu ch hcu, countExpiry_append]
          rw [show addTimer (some { fireAt := ct + 5000, user := cu }) []
              = [{ fireAt := ct + 5000, user := cu }] from rfl]
          rw [ih cs [{ fireAt := ct + 5000, user := cu }] (ch.addTypingUser cu ct)
            (by simp only [List.length_cons, List.length_nil]; omega) hmem2]
          rw [countTypingStarts_cons_start]
          rw [show countExpiry
              [({ kind := .typingStarted, user := cu, time := ct } : TypingBroadcast)]
              = 0 from rfl]
          simp only [List.length_cons, List.length_nil]
          omega
        | typingStop =>
          rw [execTypingCmd_stop ct cu ch hcu, countExpiry_append]
          rw [show addTimer (none : Option TypingTimer) [] = [] from rfl]
          rw [ih cs [] (ch.removeTypingUser cu)
            (by simp only [List.length_nil]; omega) hmem2]
          rw [countTypingStarts_cons_stop]
          simp [countExpiry]
      | cons t ts =>
        rw [show runTypingFuel (fuel + 1)
              ({ time := ct, kind := ck, user := cu } :: cs) (t :: ts) (some ch)
            = (if t.fireAt ≤ ct then
                (fireTypingTimer t (some ch)).2 ++
                  runTypingFuel fuel ({ time := ct, kind := ck, user := cu } :: cs) ts
                    (fireTypingTimer t (some ch)).1
              else
                (execTypingCmd { time := ct, kind := ck, user := cu } (some ch)).2.1 ++
                  runTypingFuel fuel cs
                    (addTimer (execTypingCmd { time := ct, kind := ck, user := cu }
                      (some ch)).2.2 (t :: ts))
                    (execTypingCmd { time := ct, kind := ck, user := cu } (some ch)).1)
              from by rw [runTypingFuel]]
        simp only [List.length_cons] at hle ⊢
        by_cases hcmp : t.fireAt ≤ ct
        · rw [if_pos hcmp]
          rw [show fireTypingTimer t (some ch)
              = (some (ch.removeTypingUser t.user),
                [{ kind := .stoppedFromExpiry, user := t.user, time := t.fireAt }]) from rfl]
          rw [countExpiry_append]
          rw [ih ({ time := ct, kind := ck, user := cu } :: cs) ts (ch.removeTypingUser t.user)
            (by simp only [List.length_cons]; omega) hmem]
          rw [show countExpiry
              [({ kind := .stoppedFromExpiry, user := t.user, time := t.fireAt } :
                TypingBroadcast)] = 1 from rfl]
          omega
        · rw [if_neg hcmp]
          cases ck with
          | typingStart =>
            rw [execTypingCmd_start ct cu ch hcu, countExpiry_append]
            rw [show addTimer (some { fireAt := ct + 5000, user := cu }) (t :: ts)
                = insertTimer { fireAt := ct + 5000, user := cu } (t :: ts) from rfl]
            rw [ih cs (insertTimer { fireAt := ct + 5000, user := cu } (t :: ts))
              (ch.addTypingUser cu ct)
              (by rw [insertTimer_length]; simp only [List.length_cons]; omega) hmem2]
            rw [countTypingStarts_cons_start, insertTimer_length]
            rw [show countExpiry
                [({ kind := .typingStarted, user := cu, time := ct } : TypingBroadcast)]
                = 0 from rfl]
            simp only [List.length_cons]
            omega
          | typingStop =>
            rw [execTypingCmd_stop ct cu ch hcu, countExpiry_append]
            rw [show addTimer (none : Option TypingTimer) (t :: ts) = t :: ts from rfl]
            rw [ih cs (t :: ts) (ch.removeTypingUser cu)
              (by simp only [List.length_cons]; omega) hmem2]
            rw [countTypingStarts_cons_stop]
            simp [countExpiry]

/-- Counterexample to C8: user 1 starts typing at time 0 and explicitly
stops at time 1000, well before the 5-second deadline, yet the scheduled
timer still fires and broadcasts one auto-expiry `user_stopped_typing`;
and two typing-starts stack two timers, producing two expiry broadcasts
instead of replacing the deadline. -/
theorem typing_stop_does_not_cancel_timer_cex :
    countExpiry (runTyping
      [{ time := 0, kind := .typingStart, user := 1 },
       { time := 1000, kind := .typingStop, user := 1 }] [] (some demoTwoMemberChat)) = 1
    ∧ countExpiry (runTyping
      [{ time := 0, kind := .typingStart, user := 1 },
       { time := 2000, kind := .typingStart, user := 1 }] [] (some demoTwoMemberChat)) = 2 := by
  decide

/-- C8 as amended: a typing-start replaces the typing entry of the user (fresh
timestamp, still at most one entry), but the 5-second timers are
independent and unconditional: while the chat exists, every typing-start by
a member schedules one timer and every timer broadcasts exactly one expiry
`user_stopped_typing` when it fires, regardless of intervening typing-stops
or refreshing typing-starts — a run with n typing-starts produces exactly n
expiry broadcasts, so a lone unanswered typing-start produces exactly one,
and an explicit stop before the deadline does not prevent the broadcast. -/
theorem typing_expiry_broadcast_count :
    (∀ (c : ChatRec) (u : Nat) (now : Int),
      (c.addTypingUser u now).typingUsers.filter (fun e => e.user = u)
        = [({ user := u, timestamp := now } : TypingEntry)])
    ∧ (∀ (cmds : List TypingCmd) (timers : List TypingTimer) (ch : ChatRec),
      (∀ c ∈ cmds, c.user ∈ ch.users) →
      countExpiry (runTyping cmds timers (some ch))
        = countTypingStarts cmds + timers.length) := by
  constructor
  · intro c u now
    show ((c.typingUsers.filter (fun e => e.user ≠ u)) ++
        [({ user := u, timestamp := now } : TypingEntry)]).filter (fun e => e.user = u) = _
    rw [List.filter_append]
    rw [show (c.typingUsers.filter (fun e => e.user ≠ u)).filter (fun e => e.user = u)
        = [] from by
      induction c.typingUsers with
      | nil => rfl
      | cons e es ih => by_cases h : e.user = u <;> simp [List.filter_cons, h, ih]]
    simp
  · intro cmds timers ch hmem
    exact runTypingFuel_expiry_count (2 * cmds.length + timers.length) cmds timers ch
      (Nat.le_refl _) hmem

/-- Concrete instance of the amended C8: one typing-start by member 1 with
no pending timers yields exactly one expiry broadcast. -/
theorem typing_expiry_broadcast_count_witness :
    ((demoTwoMemberChat.addTypingUser 1 0).typingUsers.filter (fun e => e.user = 1)
        = [({ user := 1, timestamp := 0 } : TypingEntry)])
    ∧ countExpiry (runTyping [{ time := 0, kind := .typingStart, user := 1 }] []
        (some demoTwoMemberChat))
      = countTypingStarts [{ time := 0, kind := .typingStart, user := 1 }]
        + List.length ([] : List TypingTimer) :=
  ⟨typing_expiry_broadcast_count.1 demoTwoMemberChat 1 0,
   typing_expiry_broadcast_count.2 [{ time := 0, kind := .typingStart, user := 1 }] []
     demoTwoMemberChat (by decide)⟩

end SyncTalk
